import Mathlib

/-!
Verification development for the agent-call layer of the gpgsm client
(`call-agent.c`).  C byte strings are embedded as `List Nat` (one entry per
byte); agent interaction is embedded through an oracle supplying the result
of `start_agent` and, for every command line sent with `assuan_transact`,
the completion code, the concatenated data chunks and the status lines
delivered during that transaction.  Each operation returns its result code,
its output values, whether the agent connection was established
(`start_agent` ran) and the list of command lines sent.
-/

/-! ## Error codes (libgpg-error constants used by the source) -/

def GPG_ERR_GENERAL : Nat := 1
def GPG_ERR_DIGEST_ALGO : Nat := 5
def GPG_ERR_INV_ARG : Nat := 46
def GPG_ERR_INV_VALUE : Nat := 55
def GPG_ERR_NO_DATA : Nat := 61
def GPG_ERR_INTERNAL : Nat := 63
def GPG_ERR_ENOMEM : Nat := 86
def GPG_ERR_INV_SEXP : Nat := 181

/-- Maximum Assuan line length, `ASSUAN_LINELENGTH` from assuan.h. -/
def ASSUAN_LINELENGTH : Nat := 1002

/-! ## Byte-string helpers -/

/-- Byte string of a Lean string literal (ASCII). -/
def str (s : String) : List Nat := s.data.map Char.toNat

/-- Blank as tested by gnupg's `spacep` macro: space or tab. -/
def spacep (c : Nat) : Bool := c == 32 || c == 9

/-- Decimal digit. -/
def digitp (c : Nat) : Bool := 48 ≤ c && c ≤ 57

/-- Hex digit as tested by gnupg's `hexdigitp` macro. -/
def hexdigitp (c : Nat) : Bool :=
  digitp c || (65 ≤ c && c ≤ 70) || (97 ≤ c && c ≤ 102)

/-- Whitespace as tested by C `isspace` (used by `strtoul`). -/
def isspaceC (c : Nat) : Bool := c == 32 || (9 ≤ c && c ≤ 13)

/-! ## Decimal printing (sprintf "%d"/"%u") and parsing (strtoul) -/

/-- Fuel-driven helper for `natDecimal`; any fuel at least `n` yields the
decimal digits of `n` (the fuel only serves structural recursion). -/
def natDecimalAux : Nat → Nat → List Nat
  | 0, n => [n + 48]
  | fuel + 1, n =>
    if n < 10 then [n + 48]
    else natDecimalAux fuel (n / 10) ++ [n % 10 + 48]

/-- Decimal digits of `n`, most significant first, as produced by
`sprintf "%u"` (no sign, no leading zeros). -/
def natDecimal (n : Nat) : List Nat := natDecimalAux n n

theorem natDecimalAux_fuel : ∀ n fuel1 fuel2, n ≤ fuel1 → n ≤ fuel2 →
    natDecimalAux fuel1 n = natDecimalAux fuel2 n := by
  intro n
  induction n using Nat.strong_induction_on with
  | _ n ih =>
    intro fuel1 fuel2 h1 h2
    match fuel1, fuel2 with
    | 0, 0 => rfl
    | 0, f2 + 1 =>
      have : n = 0 := by omega
      subst this
      rfl
    | f1 + 1, 0 =>
      have : n = 0 := by omega
      subst this
      rfl
    | f1 + 1, f2 + 1 =>
      by_cases h10 : n < 10
      · simp [natDecimalAux, h10]
      · have hd : n / 10 < n := Nat.div_lt_self (by omega) (by omega)
        have hf1 : n / 10 ≤ f1 := by omega
        have hf2 : n / 10 ≤ f2 := by omega
        simp only [natDecimalAux, h10, if_false]
        rw [ih (n / 10) hd f1 f2 hf1 hf2]

/-- Unfolding equation for `natDecimal`, matching the usual recursive
presentation. -/
theorem natDecimal_eq (n : Nat) :
    natDecimal n = if n < 10 then [n + 48] else natDecimal (n / 10) ++ [n % 10 + 48] := by
  by_cases h10 : n < 10
  · simp only [h10, if_true]
    match n, h10 with
    | 0, _ => rfl
    | k + 1, h => simp [natDecimal, natDecimalAux, h]
  · simp only [h10, if_false]
    have hd : n / 10 < n := Nat.div_lt_self (by omega) (by omega)
    match n, h10 with
    | k + 1, h10 =>
      show natDecimalAux (k + 1) (k + 1) = _
      simp only [natDecimalAux, h10, if_false]
      rw [natDecimalAux_fuel ((k + 1) / 10) k ((k + 1) / 10) (by omega) (by omega)]
      rfl

/-- Digit-accumulation loop of `strtoul`: consume leading decimal digits,
returning the accumulated value and the unconsumed remainder. -/
def parseNatAux : List Nat → Nat → Nat × List Nat
  | c :: r, acc => if digitp c then parseNatAux r (acc * 10 + (c - 48)) else (acc, c :: r)
  | [], acc => (acc, [])

/-- Value of a digit list under left-to-right accumulation. -/
def decVal (acc : Nat) (ds : List Nat) : Nat :=
  ds.foldl (fun a c => a * 10 + (c - 48)) acc

/-- C `strtoul(p, &endp, 10)` on the embedded byte string: skip `isspace`
characters, then consume decimal digits.  (A leading `+`/`-` sign, which
`strtoul` would also accept, is not modelled; no input considered here
carries one.)  Returns the parsed value and the remainder at `endp`; when no
digit follows the blanks, returns `0` with `endp = p` as `strtoul` does. -/
def strtoul10 (p : List Nat) : Nat × List Nat :=
  let q := p.dropWhile isspaceC
  match q with
  | c :: _ => if digitp c then parseNatAux q 0 else (0, p)
  | [] => (0, p)

theorem natDecimal_ne_nil (n : Nat) : natDecimal n ≠ [] := by
  rw [natDecimal_eq]
  split <;> simp

theorem natDecimal_all_digits (n : Nat) : ∀ c ∈ natDecimal n, digitp c = true := by
  induction n using Nat.strong_induction_on with
  | _ n ih =>
    rw [natDecimal_eq]
    split
    · intro c hc
      simp only [List.mem_singleton] at hc
      subst hc
      simp only [digitp, Bool.and_eq_true, decide_eq_true_eq]
      omega
    · intro c hc
      rcases List.mem_append.1 hc with h | h
      · exact ih (n / 10) (Nat.div_lt_self (by omega) (by omega)) c h
      · simp only [List.mem_singleton] at h
        subst h
        simp only [digitp, Bool.and_eq_true, decide_eq_true_eq]
        omega

theorem natDecimal_length_pos (n : Nat) : 0 < (natDecimal n).length := by
  cases h : natDecimal n with
  | nil => exact absurd h (natDecimal_ne_nil n)
  | cons c r => simp

theorem decVal_natDecimal (n : Nat) : ∀ acc : Nat,
    decVal acc (natDecimal n) = acc * 10 ^ (natDecimal n).length + n := by
  induction n using Nat.strong_induction_on with
  | _ n ih =>
    intro acc
    rw [natDecimal_eq]
    split
    · simp only [decVal, List.foldl_cons, List.foldl_nil, List.length_singleton]
      omega
    · rename_i hn
      have hlt : n / 10 < n := Nat.div_lt_self (by omega) (by omega)
      simp only [decVal, List.foldl_append, List.foldl_cons, List.foldl_nil,
        List.length_append, List.length_singleton]
      have h1 := ih (n / 10) hlt acc
      simp only [decVal] at h1
      rw [h1]
      have h2 : n / 10 * 10 + n % 10 = n := by omega
      have h3 : n % 10 + 48 - 48 = n % 10 := by omega
      rw [h3, pow_succ]
      ring_nf
      omega

/-- Head of a byte string fails the digit test (or the string is empty). -/
def nonDigitHead : List Nat → Prop
  | [] => True
  | c :: _ => digitp c = false

theorem parseNatAux_digits (ds : List Nat) (hds : ∀ c ∈ ds, digitp c = true) :
    ∀ (s : List Nat) (acc : Nat), nonDigitHead s →
      parseNatAux (ds ++ s) acc = (decVal acc ds, s) := by
  induction ds with
  | nil =>
    intro s acc hs
    cases s with
    | nil => simp [parseNatAux, decVal]
    | cons c r =>
      simp only [nonDigitHead] at hs
      simp [parseNatAux, hs, decVal]
  | cons d ds ih =>
    intro s acc hs
    have hd : digitp d = true := hds d (by simp)
    simp only [List.cons_append, parseNatAux, hd, if_true]
    show parseNatAux (ds ++ s) (acc * 10 + (d - 48)) = (decVal acc (d :: ds), s)
    rw [ih (fun c hc => hds c (by simp [hc])) s _ hs]
    simp [decVal]

theorem digitp_not_space {c : Nat} (h : digitp c = true) : isspaceC c = false := by
  have hc : 48 ≤ c ∧ c ≤ 57 := by simpa [digitp] using h
  simp only [isspaceC, Bool.or_eq_false_iff, Bool.and_eq_false_iff]
  refine ⟨by simp only [beq_eq_false_iff_ne, ne_eq]; omega, Or.inr ?_⟩
  simp only [decide_eq_false_iff_not]
  omega

/-- `strtoul` applied to the decimal rendering of `n` followed by a
non-digit remainder parses back exactly `n` and stops at the remainder. -/
theorem strtoul10_natDecimal (n : Nat) (s : List Nat) (hs : nonDigitHead s) :
    strtoul10 (natDecimal n ++ s) = (n, s) := by
  obtain ⟨c, r, hcr⟩ : ∃ c r, natDecimal n = c :: r := by
    cases h : natDecimal n with
    | nil => exact absurd h (natDecimal_ne_nil n)
    | cons c r => exact ⟨c, r, rfl⟩
  have hc : digitp c = true := natDecimal_all_digits n c (by rw [hcr]; simp)
  have hparse := parseNatAux_digits (natDecimal n) (natDecimal_all_digits n) s 0 hs
  rw [decVal_natDecimal n 0] at hparse
  simp only [Nat.zero_mul, Nat.zero_add] at hparse
  rw [strtoul10, hcr]
  simp only [List.cons_append, List.dropWhile_cons, digitp_not_space hc]
  simp only [Bool.false_eq_true, if_false, hc, if_true]
  rw [← List.cons_append, ← hcr, hparse]

/-- `n < 10 ^ k` (with `k ≥ 1`) bounds the decimal length of `n` by `k`. -/
theorem natDecimal_length_le (k : Nat) : ∀ n : Nat, 1 ≤ k → n < 10 ^ k →
    (natDecimal n).length ≤ k := by
  induction k with
  | zero => intro n h; omega
  | succ k ih =>
    intro n _ hn
    rw [natDecimal_eq]
    split
    · simp only [List.length_singleton]
      omega
    · rename_i h10
      have hk : 1 ≤ k := by
        by_contra hk0
        have : k = 0 := by omega
        subst this
        have h1 : (10 : Nat) ^ (0 + 1) = 10 := by norm_num
        rw [h1] at hn
        omega
      have : n / 10 < 10 ^ k := by
        rw [Nat.div_lt_iff_lt_mul (by omega)]
        calc n < 10 ^ (k + 1) := hn
        _ = 10 ^ k * 10 := by rw [pow_succ]
      simp only [List.length_append, List.length_singleton]
      have := ih (n / 10) hk this
      omega

/-! ## Hex formatting (sprintf "%02X" loops) -/

/-- Single uppercase hex digit for a value below 16. -/
def hexDigitU (v : Nat) : Nat := if v < 10 then v + 48 else v + 55

/-- Two uppercase hex characters of one byte, as printed by `"%02X"`. -/
def hexByteU (b : Nat) : List Nat := [hexDigitU (b / 16 % 16), hexDigitU (b % 16)]

/-- Uppercase hex rendering of a byte string, as produced by the
`for (i=0; i < digestlen; i++, p += 2) sprintf (p, "%02X", digest[i])`
loops in `gpgsm_agent_pksign` and `gpgsm_scd_pksign`. -/
def hexUpper (digest : List Nat) : List Nat := digest.foldr (fun b acc => hexByteU b ++ acc) []

/-! ## has_leading_keyword -/

/-- Modelled from the spec: the helper `has_leading_keyword` (gnupg common
library, not part of the sources here).  The spec describes inquiries and
status lines as "keyword-led lines"; the helper succeeds when the line
starts with the keyword followed by a blank or the end of the line, and
returns the remainder of the line with the separating blanks skipped. -/
def has_leading_keyword (line kw : List Nat) : Option (List Nat) :=
  if line.take kw.length = kw then
    match line.drop kw.length with
    | [] => some []
    | c :: rest => if spacep c then some ((c :: rest).dropWhile spacep) else none
  else none

/-! ## Canonical S-expression validation -/

/-- Consume one length-prefixed atom `<decimal>:<that many bytes>`.  Part of
the canonical S-expression grammar; fails unless the input starts with a
digit, the number is followed by a colon and enough bytes remain. -/
def parseAtomLen (s : List Nat) : Option (Nat × List Nat) :=
  match s with
  | [] => none
  | c :: _ =>
    if digitp c then
      let pr := parseNatAux s 0
      match pr.2 with
      | c2 :: r2 =>
        if c2 = 58 then
          if pr.1 ≤ r2.length then some (pr.1, r2.drop pr.1) else none
        else none
      | [] => none
    else none

/-- Consume the items of a canonical S-expression list up to and including
its closing parenthesis, returning the remainder.  `fuel` bounds the
recursion; every call site supplies at least the input length, which is
ample since each recursive step consumes input. -/
def parseItems : Nat → List Nat → Option (List Nat)
  | _, [] => none
  | 0, _ :: _ => none
  | fuel + 1, c :: rest =>
    if c = 41 then some rest
    else if c = 40 then
      match parseItems fuel rest with
      | some r => parseItems fuel r
      | none => none
    else
      match parseAtomLen (c :: rest) with
      | some pr => parseItems fuel pr.2
      | none => none

/-- Modelled from the spec: `gcry_sexp_canon_len` (libgcrypt, external to
these sources).  Per the spec the validator is a "strict canonical-form
check" of the grammar `"(" (decimal-length ":" raw-bytes-of-that-length |
nested-S-expr)* ")"`, returning the length of the canonical S-expression
found at the start of the buffer, and failing on any deviation.  Bytes
after the closing parenthesis are not inspected. -/
def gcry_sexp_canon_len (buf : List Nat) : Option Nat :=
  match buf with
  | c :: rest =>
    if c = 40 then
      match parseItems (rest.length + 1) rest with
      | some r => some (rest.length + 1 - r.length)
      | none => none
    else none
  | [] => none

/-! ## SExpCodec operations from the source -/

/-- S-expression assembly in `gpgsm_scd_pksign` (lines 245-261): the raw
card signature is wrapped as `"(7:sig-val(3:rsa(1:s<len>:<bytes>)))"`,
where `<len>` is printed with `sprintf "%u:"` (faithful for lengths below
2^32). -/
def wrapRawSignature (sigbuf : List Nat) : List Nat :=
  str "(7:sig-val(3:rsa(1:s" ++ natDecimal sigbuf.length ++ [58] ++ sigbuf ++ str ")))"

/-- Tail of the value-field extraction in `gpgsm_agent_pkdecrypt` (lines
351-360): `n = strtoul (p, &endp, 10)`, reject a zero length or a missing
colon, advance past the colon, reject when `endp - p + n` exceeds `len`,
else return the `n` bytes at `endp`. -/
def extractValueTail (p : List Nat) (len : Nat) : Except Nat (List Nat) :=
  let pr := strtoul10 p
  if pr.1 = 0 then Except.error GPG_ERR_INV_SEXP
  else
    match pr.2 with
    | c :: rest =>
      if c = 58 then
        if p.length - rest.length + pr.1 > len then Except.error GPG_ERR_INV_SEXP
        else Except.ok (rest.take pr.1)
      else Except.error GPG_ERR_INV_SEXP
    | [] => Except.error GPG_ERR_INV_SEXP

/-- Value-field extraction in `gpgsm_agent_pkdecrypt` (lines 334-360).  The
input is the concatenated data returned by the PKDECRYPT transaction; the
code first appends a Nul (`put_membuf (&data, "", 1)`), then accepts either
the current form `"(5:value<len>:<data>)"` (checking `len < 13` and the
`"(5:value"` tag, subtracting 11 from the total length and skipping the
8-byte tag) or, for buffers not starting with `'('`, the legacy
unterminated form (dropping only the Nul from the length). -/
def extractValueField (buf0 : List Nat) : Except Nat (List Nat) :=
  let buf := buf0 ++ [0]
  let len := buf.length
  if buf.head? = some 40 then
    if len < 13 ∨ ¬ buf.take 8 = str "(5:value" then Except.error GPG_ERR_INV_SEXP
    else extractValueTail (buf.drop 8) (len - 11)
  else extractValueTail buf (len - 1)

/-- A buffer constructed exactly as `"(5:value<len>:<data>)"` with `<len>`
the decimal length of `data` — the construction whose left inverse the
extraction is claimed to be. -/
def buildValueSexp (data : List Nat) : List Nat :=
  str "(5:value" ++ natDecimal data.length ++ [58] ++ data ++ [41]

theorem digitp_58 : digitp 58 = false := by decide

/-- Claim C1: applying the decrypt value-field extraction of
`gpgsm_agent_pkdecrypt` to a buffer constructed exactly as
`"(5:value<len>:<data>)"` is claimed to succeed and return `data`; in fact
the code subtracts 11 instead of 10 from the total length ("count only the
data of the second part"), so the subsequent consistency check
`endp - p + n > len` compares `digits + 1 + n` against `digits + n` and the
extraction fails with `GPG_ERR_INV_SEXP` for every `data`. -/
theorem extractValueField_construction_always_fails (data : List Nat) :
    extractValueField (buildValueSexp data) = Except.error GPG_ERR_INV_SEXP := by
  cases data with
  | nil => rfl
  | cons d ds =>
    have hn1 : 1 ≤ (d :: ds).length := by simp
    have hbuf : buildValueSexp (d :: ds) ++ [0] =
        str "(5:value" ++ (natDecimal (d :: ds).length ++ 58 :: ((d :: ds) ++ [41, 0])) := by
      simp [buildValueSexp, List.append_assoc]
    have hlen8 : (str "(5:value").length = 8 := by decide
    have hL : 1 ≤ (natDecimal (d :: ds).length).length := natDecimal_length_pos _
    have hhead : (buildValueSexp (d :: ds) ++ [0]).head? = some 40 := by
      rw [hbuf]
      have h40 : str "(5:value" = 40 :: str "5:value" := by decide
      rw [h40]
      rfl
    have htake : (buildValueSexp (d :: ds) ++ [0]).take 8 = str "(5:value" := by
      rw [hbuf]
      exact List.take_left' hlen8
    have hdrop : (buildValueSexp (d :: ds) ++ [0]).drop 8 =
        natDecimal (d :: ds).length ++ 58 :: ((d :: ds) ++ [41, 0]) := by
      rw [hbuf]
      exact List.drop_left' hlen8
    have hblen : (buildValueSexp (d :: ds) ++ [0]).length =
        11 + (natDecimal (d :: ds).length).length + (d :: ds).length := by
      rw [hbuf]
      simp only [List.length_append, List.length_cons, hlen8]
      simp
      omega
    have hstr : strtoul10 (natDecimal (d :: ds).length ++ 58 :: ((d :: ds) ++ [41, 0])) =
        ((d :: ds).length, 58 :: ((d :: ds) ++ [41, 0])) := by
      exact strtoul10_natDecimal _ _ (by simp [nonDigitHead, digitp_58])
    simp only [extractValueField, hhead, htake, hblen, hdrop, if_true]
    rw [if_neg (not_or.2 ⟨by omega, by simp⟩)]
    simp only [extractValueTail, hstr]
    rw [if_neg (by simp)]
    rw [if_pos trivial]
    rw [if_pos ?side]
    case side =>
      simp only [List.length_append, List.length_cons, List.length_nil]
      omega

theorem natDecimal_head_shape (n : Nat) :
    ∃ c cs, natDecimal n = c :: cs ∧ digitp c = true ∧ ¬ c = 41 ∧ ¬ c = 40 := by
  obtain ⟨c, cs, hcr⟩ : ∃ c cs, natDecimal n = c :: cs := by
    cases h : natDecimal n with
    | nil => exact absurd h (natDecimal_ne_nil n)
    | cons c cs => exact ⟨c, cs, rfl⟩
  have hc : digitp c = true := natDecimal_all_digits n c (by rw [hcr]; simp)
  have hrange : 48 ≤ c ∧ c ≤ 57 := by simpa [digitp] using hc
  exact ⟨c, cs, hcr, hc, by omega, by omega⟩

theorem parseNatAux_natDecimal_colon (n : Nat) (t : List Nat) :
    parseNatAux (natDecimal n ++ 58 :: t) 0 = (n, 58 :: t) := by
  have h := parseNatAux_digits (natDecimal n) (natDecimal_all_digits n)
    (58 :: t) 0 (by simp [nonDigitHead, digitp_58])
  rw [decVal_natDecimal] at h
  simpa using h

/-- A length-prefixed atom built from `natDecimal n`, a colon and `n` data
bytes parses to exactly those bytes, leaving the remainder. -/
theorem parseAtomLen_build (n : Nat) (data rest : List Nat) (hlen : data.length = n) :
    parseAtomLen (natDecimal n ++ 58 :: (data ++ rest)) = some (n, rest) := by
  obtain ⟨c, cs, hcr, hc, _, _⟩ := natDecimal_head_shape n
  have hparse := parseNatAux_natDecimal_colon n (data ++ rest)
  rw [hcr] at hparse ⊢
  simp only [List.cons_append, parseAtomLen, hc, if_true] at hparse ⊢
  rw [hparse]
  simp only [if_pos rfl]
  rw [List.drop_left' hlen]
  have hle : n ≤ data.length + rest.length := by omega
  simp [hle]

theorem parseItems_close (f : Nat) (r : List Nat) : parseItems (f + 1) (41 :: r) = some r := by
  simp [parseItems]

theorem parseItems_atom (f n : Nat) (data rest : List Nat) (hlen : data.length = n) :
    parseItems (f + 1) (natDecimal n ++ 58 :: (data ++ rest)) = parseItems f rest := by
  obtain ⟨c, cs, hcr, hc, hc41, hc40⟩ := natDecimal_head_shape n
  have hatom := parseAtomLen_build n data rest hlen
  rw [hcr] at hatom ⊢
  simp only [List.cons_append] at hatom ⊢
  simp only [parseItems, hc41, hc40, if_false, hatom]

theorem parseItems_open_some (f : Nat) (rest r : List Nat)
    (h : parseItems f rest = some r) :
    parseItems (f + 1) (40 :: rest) = parseItems f r := by
  simp [parseItems, h]

/-- Parsing the items of the wrapped-signature S-expression body consumes
everything up to (and including) the three closing parentheses. -/
theorem parseItems_wrapBody (k : Nat) (sig junk : List Nat) :
    parseItems (k + 8)
      (natDecimal 7 ++ 58 :: (str "sig-val" ++
        (40 :: (natDecimal 3 ++ 58 :: (str "rsa" ++
          (40 :: (natDecimal 1 ++ 58 :: ([115] ++
            (natDecimal sig.length ++ 58 :: (sig ++
              (41 :: 41 :: 41 :: junk))))))))))) = some junk := by
  have h5 : parseItems (k + 3)
      (natDecimal sig.length ++ 58 :: (sig ++ (41 :: 41 :: 41 :: junk))) =
      some (41 :: 41 :: junk) := by
    rw [parseItems_atom (k + 2) sig.length sig _ rfl]
    exact parseItems_close (k + 1) _
  have h4 : parseItems (k + 4)
      (natDecimal 1 ++ 58 :: ([115] ++
        (natDecimal sig.length ++ 58 :: (sig ++ (41 :: 41 :: 41 :: junk))))) =
      some (41 :: 41 :: junk) := by
    rw [parseItems_atom (k + 3) 1 [115] _ (by decide)]
    exact h5
  have h3 : parseItems (k + 5)
      (40 :: (natDecimal 1 ++ 58 :: ([115] ++
        (natDecimal sig.length ++ 58 :: (sig ++ (41 :: 41 :: 41 :: junk)))))) =
      some (41 :: junk) := by
    rw [parseItems_open_some (k + 4) _ _ h4]
    exact parseItems_close (k + 3) _
  have h2 : parseItems (k + 6)
      (natDecimal 3 ++ 58 :: (str "rsa" ++
        (40 :: (natDecimal 1 ++ 58 :: ([115] ++
          (natDecimal sig.length ++ 58 :: (sig ++ (41 :: 41 :: 41 :: junk)))))))) =
      some (41 :: junk) := by
    rw [parseItems_atom (k + 5) 3 (str "rsa") _ (by decide)]
    exact h3
  have h1 : parseItems (k + 7)
      (40 :: (natDecimal 3 ++ 58 :: (str "rsa" ++
        (40 :: (natDecimal 1 ++ 58 :: ([115] ++
          (natDecimal sig.length ++ 58 :: (sig ++ (41 :: 41 :: 41 :: junk))))))))) =
      some junk := by
    rw [parseItems_open_some (k + 6) _ _ h2]
    exact parseItems_close (k + 5) _
  rw [parseItems_atom (k + 7) 7 (str "sig-val") _ (by decide)]
  exact h1

/-- The wrapped signature, followed by any junk bytes (the uninitialized
tail of the allocated buffer), in head-normal form for the canonical
parser. -/
theorem wrapRawSignature_shape (s junk : List Nat) :
    wrapRawSignature s ++ junk =
      40 :: (natDecimal 7 ++ 58 :: (str "sig-val" ++
        (40 :: (natDecimal 3 ++ 58 :: (str "rsa" ++
          (40 :: (natDecimal 1 ++ 58 :: ([115] ++
            (natDecimal s.length ++ 58 :: (s ++
              (41 :: 41 :: 41 :: junk))))))))))) := by
  have h20 : str "(7:sig-val(3:rsa(1:s" =
      [40] ++ natDecimal 7 ++ [58] ++ str "sig-val" ++ [40] ++ natDecimal 3 ++ [58] ++
        str "rsa" ++ [40] ++ natDecimal 1 ++ [58] ++ [115] := by decide
  have h3p : str ")))" = [41, 41, 41] := by decide
  simp only [wrapRawSignature, h20, h3p]
  simp [List.append_assoc]

theorem wrapRawSignature_length (s : List Nat) :
    (wrapRawSignature s).length = 24 + (natDecimal s.length).length + s.length := by
  have hpre : (str "(7:sig-val(3:rsa(1:s").length = 20 := by decide
  have hs3 : (str ")))").length = 3 := by decide
  simp only [wrapRawSignature, List.length_append, hpre, hs3, List.length_cons,
    List.length_singleton, List.length_nil]
  omega

theorem wrap_canon_aux (s junk : List Nat) :
    gcry_sexp_canon_len (wrapRawSignature s ++ junk) =
      some (wrapRawSignature s).length := by
  have hL1 := natDecimal_length_pos s.length
  have hwlen := wrapRawSignature_length s
  have htot := congrArg List.length (wrapRawSignature_shape s junk)
  rw [List.length_cons, List.length_append] at htot
  have h8 : 8 ≤ (wrapRawSignature s).length + junk.length := by omega
  obtain ⟨k, hk⟩ := Nat.exists_eq_add_of_le (htot ▸ h8)
  rw [wrapRawSignature_shape s junk]
  simp only [gcry_sexp_canon_len]
  rw [if_pos trivial]
  rw [hk, Nat.add_comm 8 k]
  rw [parseItems_wrapBody k s junk]
  have harith : k + 8 - junk.length = (wrapRawSignature s).length := by omega
  show some (k + 8 - junk.length) = some (wrapRawSignature s).length
  rw [harith]

/-- Claim C4: for every non-empty byte string `s` (bounded so that the
`sprintf "%u"` rendering of its length is faithful), the wrapped signature
`"(7:sig-val(3:rsa(1:s<len>:<bytes>)))"` built by `gpgsm_scd_pksign` passes
canonical S-expression validation whatever uninitialized bytes trail it in
the allocated buffer; the validation reports the length of the canonical
S-expression, which together with the terminating Nul fits inside the
buffer of reported length `21 + 11 + len + 4`, so the source's
`assert (gcry_sexp_canon_len (*r_buf, *r_buflen, NULL, NULL))` holds. -/
theorem wrapRawSignature_valid (s : List Nat) (h1 : 0 < s.length)
    (h2 : s.length < 2 ^ 32) :
    (∀ junk : List Nat,
      gcry_sexp_canon_len (wrapRawSignature s ++ junk) =
        some (wrapRawSignature s).length) ∧
    (wrapRawSignature s).length = 24 + (natDecimal s.length).length + s.length ∧
    (wrapRawSignature s).length + 1 ≤ 21 + 11 + s.length + 4 := by
  have hwlen := wrapRawSignature_length s
  have h10 : (natDecimal s.length).length ≤ 10 := by
    refine natDecimal_length_le 10 s.length (by omega) ?_
    have hb : (2 : Nat) ^ 32 ≤ 10 ^ 10 := by norm_num
    omega
  exact ⟨fun junk => wrap_canon_aux s junk, hwlen, by omega⟩

theorem wrapRawSignature_valid_witness :
    0 < ([65] : List Nat).length ∧ ([65] : List Nat).length < 2 ^ 32 ∧
    gcry_sexp_canon_len (wrapRawSignature [65] ++ []) =
      some (wrapRawSignature [65]).length ∧
    (wrapRawSignature [65]).length =
      24 + (natDecimal ([65] : List Nat).length).length + ([65] : List Nat).length := by
  have h := wrapRawSignature_valid [65] (by decide) (by norm_num)
  exact ⟨by decide, by norm_num, h.1 [], h.2.1⟩

/-! ## Agent interaction model -/

/-- Digest algorithm identifiers of libgcrypt used in the `switch` of
`gpgsm_scd_pksign`. -/
def GCRY_MD_MD5 : Nat := 1
def GCRY_MD_SHA1 : Nat := 2
def GCRY_MD_RMD160 : Nat := 3
def GCRY_MD_SHA256 : Nat := 8

/-- Outcome of one `assuan_transact` call: completion code, concatenated
data chunks delivered to the data callback, and status lines delivered to
the status callback.  Status lines and data arrive during the transaction,
before the completion code, which is why they are visible even when `rc`
ends up nonzero. -/
structure TransactReply where
  rc : Nat
  data : List Nat
  status : List (List Nat)

/-- Environment of one operation: the result of `start_agent`, the reply
of the agent for each command line, and the success of the allocations the
source tests for NULL (`get_membuf` results and the `xtrymalloc` in
`gpgsm_scd_pksign`), plus the value `gpg_error_from_syserror ()` would
report on such a failure. -/
structure AgentOracle where
  startRc : Nat
  reply : List Nat → TransactReply
  membufOk : Bool
  xtryOk : Bool
  syserrRc : Nat

/-- Result of one modelled operation: return code, output value, whether
`start_agent` was invoked (the agent connection established or reused),
and the command lines sent with `assuan_transact`, in order. -/
structure CallResult (α : Type) where
  rc : Nat
  val : α
  started : Bool
  cmds : List (List Nat)
deriving DecidableEq

/-- Default inquiry callback `default_inq_cb` (lines 109-129).  `proxyRc`
is the result of the external `gpgsm_proxy_pinentry_notify`, `staticPass`
the configured passphrase when `sm_have_static_passphrase ()` holds, and
`sendRc` the result of `assuan_send_data`.  For a `PINENTRY_LAUNCHED`
inquiry the proxy result is assigned to `err` and a failure is logged; the
function then returns `err` as it stands. -/
def default_inq_cb (proxyRc : Nat) (staticPass : Option (List Nat)) (sendRc : Nat)
    (line : List Nat) : Nat :=
  if (has_leading_keyword line (str "PINENTRY_LAUNCHED")).isSome then proxyRc
  else if ((has_leading_keyword line (str "PASSPHRASE")).isSome
      ∨ (has_leading_keyword line (str "NEW_PASSPHRASE")).isSome)
      ∧ staticPass.isSome then sendRc
  else 0

/-- Continuation of `gpgsm_agent_pksign` from the SETHASH step (lines
163-184): SETHASH with the decimal algorithm and the uppercase hex digest,
then PKSIGN; the collected result must pass `gcry_sexp_canon_len`, else
`GPG_ERR_INV_VALUE` (a NULL `get_membuf` result fails that same check,
since `gcry_sexp_canon_len` reports 0 for it). -/
def pksignHash (o : AgentOracle) (digest : List Nat) (digestalgo : Nat)
    (sent : List (List Nat)) : CallResult (Option (List Nat)) :=
  let c4 := str "SETHASH " ++ natDecimal digestalgo ++ str " " ++ hexUpper digest
  let r4 := o.reply c4
  if r4.rc ≠ 0 then ⟨r4.rc, none, true, sent ++ [c4]⟩
  else
    let c5 := str "PKSIGN"
    let r5 := o.reply c5
    if r5.rc ≠ 0 then ⟨r5.rc, none, true, sent ++ [c4, c5]⟩
    else if ¬ o.membufOk then ⟨GPG_ERR_INV_VALUE, none, true, sent ++ [c4, c5]⟩
    else if (gcry_sexp_canon_len r5.data).isNone then
      ⟨GPG_ERR_INV_VALUE, none, true, sent ++ [c4, c5]⟩
    else ⟨0, some r5.data, true, sent ++ [c4, c5]⟩

/-- `gpgsm_agent_pksign` (lines 133-185): after `start_agent`, a digest
whose hex rendering would overflow the command line
(`digestlen * 2 + 50 > DIM (line)`) is rejected with `GPG_ERR_GENERAL`
before anything is sent; otherwise RESET, SIGKEY, optional SETKEYDESC,
then the SETHASH/PKSIGN continuation. -/
def gpgsm_agent_pksign (o : AgentOracle) (keygrip : List Nat)
    (desc : Option (List Nat)) (digest : List Nat) (digestalgo : Nat) :
    CallResult (Option (List Nat)) :=
  if o.startRc ≠ 0 then ⟨o.startRc, none, true, []⟩
  else if digest.length * 2 + 50 > ASSUAN_LINELENGTH then
    ⟨GPG_ERR_GENERAL, none, true, []⟩
  else
    let c1 := str "RESET"
    let r1 := o.reply c1
    if r1.rc ≠ 0 then ⟨r1.rc, none, true, [c1]⟩
    else
      let c2 := str "SIGKEY " ++ keygrip
      let r2 := o.reply c2
      if r2.rc ≠ 0 then ⟨r2.rc, none, true, [c1, c2]⟩
      else
        match desc with
        | some d =>
          let c3 := str "SETKEYDESC " ++ d
          let r3 := o.reply c3
          if r3.rc ≠ 0 then ⟨r3.rc, none, true, [c1, c2, c3]⟩
          else pksignHash o digest digestalgo [c1, c2, c3]
        | none => pksignHash o digest digestalgo [c1, c2]

/-- The `switch (digestalgo)` of `gpgsm_scd_pksign` (lines 205-220),
mapping a supported digest algorithm to its `--hash=` option. -/
def hashoptOf (digestalgo : Nat) : Option (List Nat) :=
  if digestalgo = GCRY_MD_SHA1 then some (str "--hash=sha1")
  else if digestalgo = GCRY_MD_RMD160 then some (str "--hash=rmd160")
  else if digestalgo = GCRY_MD_MD5 then some (str "--hash=md5")
  else if digestalgo = GCRY_MD_SHA256 then some (str "--hash=sha256")
  else none

/-- `gpgsm_scd_pksign` (lines 189-265): an unsupported digest algorithm is
rejected with `GPG_ERR_DIGEST_ALGO` before `start_agent` runs; after the
connection, the oversized-digest guard mirrors `gpgsm_agent_pksign`; then
SCD SETDATA and SCD PKSIGN are sent and the raw signature wrapped with
`wrapRawSignature`.  `val` carries the result buffer — NULL (`none`) when
the `xtrymalloc` fails, in which case the function still returns 0 —
together with the reported `*r_buflen = 21 + 11 + sigbuflen + 4` (0 on the
paths that never assign it). -/
def gpgsm_scd_pksign (o : AgentOracle) (keyid : List Nat)
    (desc : Option (List Nat)) (digest : List Nat) (digestalgo : Nat) :
    CallResult (Option (List Nat) × Nat) :=
  match hashoptOf digestalgo with
  | none => ⟨GPG_ERR_DIGEST_ALGO, (none, 0), false, []⟩
  | some hashopt =>
    if o.startRc ≠ 0 then ⟨o.startRc, (none, 0), true, []⟩
    else if digest.length * 2 + 50 > ASSUAN_LINELENGTH then
      ⟨GPG_ERR_GENERAL, (none, 0), true, []⟩
    else
      let c1 := str "SCD SETDATA " ++ hexUpper digest
      let r1 := o.reply c1
      if r1.rc ≠ 0 then ⟨r1.rc, (none, 0), true, [c1]⟩
      else
        let c2 := str "SCD PKSIGN " ++ hashopt ++ str " " ++ keyid
        let r2 := o.reply c2
        if r2.rc ≠ 0 then ⟨r2.rc, (none, 0), true, [c1, c2]⟩
        else
          let buflen := 21 + 11 + r2.data.length + 4
          if ¬ o.xtryOk then ⟨0, (none, buflen), true, [c1, c2]⟩
          else ⟨0, (some (wrapRawSignature r2.data), buflen), true, [c1, c2]⟩

/-- Final PKDECRYPT step of `gpgsm_agent_pkdecrypt` (lines 322-361): send
PKDECRYPT, fail with `GPG_ERR_ENOMEM` on a NULL `get_membuf` result, then
run the value-field extraction over the collected data. -/
def pkdecryptFinal (o : AgentOracle) (sent : List (List Nat)) :
    CallResult (Option (List Nat)) :=
  let c := str "PKDECRYPT"
  let r := o.reply c
  if r.rc ≠ 0 then ⟨r.rc, none, true, sent ++ [c]⟩
  else if ¬ o.membufOk then ⟨GPG_ERR_ENOMEM, none, true, sent ++ [c]⟩
  else
    match extractValueField r.data with
    | Except.error e => ⟨e, none, true, sent ++ [c]⟩
    | Except.ok v => ⟨0, some v, true, sent ++ [c]⟩

/-- `gpgsm_agent_pkdecrypt` (lines 287-362).  NULL pointer arguments are
modelled as `none`; a keygrip that is not exactly 40 characters long and a
ciphertext failing `gcry_sexp_canon_len` are rejected with
`GPG_ERR_INV_VALUE` before `start_agent`; then RESET, SETKEY, optional
SETKEYDESC and the PKDECRYPT step. -/
def gpgsm_agent_pkdecrypt (o : AgentOracle) (keygrip : Option (List Nat))
    (desc : Option (List Nat)) (ciphertext : Option (List Nat)) :
    CallResult (Option (List Nat)) :=
  match keygrip, ciphertext with
  | some kg, some ct =>
    if kg.length ≠ 40 then ⟨GPG_ERR_INV_VALUE, none, false, []⟩
    else if (gcry_sexp_canon_len ct).isNone then ⟨GPG_ERR_INV_VALUE, none, false, []⟩
    else if o.startRc ≠ 0 then ⟨o.startRc, none, true, []⟩
    else
      let c1 := str "RESET"
      let r1 := o.reply c1
      if r1.rc ≠ 0 then ⟨r1.rc, none, true, [c1]⟩
      else
        let c2 := str "SETKEY " ++ kg
        let r2 := o.reply c2
        if r2.rc ≠ 0 then ⟨r2.rc, none, true, [c1, c2]⟩
        else
          match desc with
          | some d =>
            let c3 := str "SETKEYDESC " ++ d
            let r3 := o.reply c3
            if r3.rc ≠ 0 then ⟨r3.rc, none, true, [c1, c2, c3]⟩
            else pkdecryptFinal o [c1, c2, c3]
          | none => pkdecryptFinal o [c1, c2]
  | _, _ => ⟨GPG_ERR_INV_VALUE, none, false, []⟩

/-- `gpgsm_agent_havekey` (lines 660-673): `start_agent` first, then the
length-40 keygrip check, then HAVEKEY. -/
def gpgsm_agent_havekey (o : AgentOracle) (hexkeygrip : Option (List Nat)) :
    CallResult Unit :=
  if o.startRc ≠ 0 then ⟨o.startRc, (), true, []⟩
  else
    match hexkeygrip with
    | none => ⟨GPG_ERR_INV_VALUE, (), true, []⟩
    | some kg =>
      if kg.length ≠ 40 then ⟨GPG_ERR_INV_VALUE, (), true, []⟩
      else
        let c := str "HAVEKEY " ++ kg
        ⟨(o.reply c).rc, (), true, [c]⟩

/-- `gpgsm_agent_passwd` (lines 774-797): `start_agent` first, then the
length-40 keygrip check, optional SETKEYDESC, then PASSWD. -/
def gpgsm_agent_passwd (o : AgentOracle) (hexkeygrip desc : Option (List Nat)) :
    CallResult Unit :=
  if o.startRc ≠ 0 then ⟨o.startRc, (), true, []⟩
  else
    match hexkeygrip with
    | none => ⟨GPG_ERR_INV_VALUE, (), true, []⟩
    | some kg =>
      if kg.length ≠ 40 then ⟨GPG_ERR_INV_VALUE, (), true, []⟩
      else
        match desc with
        | some d =>
          let c1 := str "SETKEYDESC " ++ d
          let r1 := o.reply c1
          if r1.rc ≠ 0 then ⟨r1.rc, (), true, [c1]⟩
          else
            let c2 := str "PASSWD " ++ kg
            ⟨(o.reply c2).rc, (), true, [c1, c2]⟩
        | none =>
          let c2 := str "PASSWD " ++ kg
          ⟨(o.reply c2).rc, (), true, [c2]⟩

/-- C `strchr (s, ' ')`: the remainder of the string from the first space
character, or `none` when there is no space. -/
def strchrSpace (s : List Nat) : Option (List Nat) :=
  match s with
  | [] => none
  | c :: rest => if c = 32 then some (c :: rest) else strchrSpace rest

/-- `keyinfo_status_cb` (lines 829-848) folded over one status line: only
the first KEYINFO line is inspected; after the keygrip the third field
must be `T` with a nonempty serial number that is terminated by a further
space (`s2 > s`), in which case that serial number is captured. -/
def keyinfo_status_step (cur : Option (List Nat)) (line : List Nat) :
    Option (List Nat) :=
  match cur with
  | some _ => cur
  | none =>
    match has_leading_keyword line (str "KEYINFO") with
    | none => none
    | some s =>
      match strchrSpace s with
      | none => none
      | some tail =>
        match tail.tail with
        | [] => none
        | c1 :: t2 =>
          if c1 = 84 then
            match t2 with
            | [] => none
            | c2 :: w =>
              if c2 = 32 ∧ w ≠ [] then
                let pre := w.takeWhile (fun x => !(x == 32))
                if pre ≠ [] ∧ pre.length < w.length then some pre else none
              else none
          else none

/-- `gpgsm_agent_keyinfo` (lines 853-879): `start_agent` first, then the
length-40 keygrip check, then KEYINFO; a captured serial number containing
`':'`, newline or carriage return is rejected with `GPG_ERR_INV_VALUE`. -/
def gpgsm_agent_keyinfo (o : AgentOracle) (hexkeygrip : Option (List Nat)) :
    CallResult (Option (List Nat)) :=
  if o.startRc ≠ 0 then ⟨o.startRc, none, true, []⟩
  else
    match hexkeygrip with
    | none => ⟨GPG_ERR_INV_VALUE, none, true, []⟩
    | some kg =>
      if kg.length ≠ 40 then ⟨GPG_ERR_INV_VALUE, none, true, []⟩
      else
        let c := str "KEYINFO " ++ kg
        let r := o.reply c
        let serialno := r.status.foldl keyinfo_status_step none
        if r.rc = 0 then
          match serialno with
          | some sn =>
            if sn.any (fun x => x == 58 || x == 10 || x == 13) then
              ⟨GPG_ERR_INV_VALUE, none, true, [c]⟩
            else ⟨0, some sn, true, [c]⟩
          | none => ⟨0, none, true, [c]⟩
        else ⟨r.rc, none, true, [c]⟩

/-- Keyword of a status line: the run of characters before the first
blank, as scanned by the `for (keywordlen = 0; *line && !spacep (line); …)`
loops of the status callbacks. -/
def statusKeyword (line : List Nat) : List Nat :=
  line.takeWhile (fun c => !(spacep c))

/-- Remainder of a status line after its keyword and the following
blanks (`while (spacep (line)) line++`). -/
def keywordRest (line : List Nat) : List Nat :=
  (line.dropWhile (fun c => !(spacep c))).dropWhile spacep

/-- `store_serialno` (lines 462-474): copy the leading run of hex digits
of the status-line remainder. -/
def store_serialno (line : List Nat) : List Nat := line.takeWhile hexdigitp

/-- `scd_serialno_status_cb` (lines 477-492) folded over one status line:
on a SERIALNO keyword the previous capture is freed and the new value
stored. -/
def scd_serialno_status_step (cur : Option (List Nat)) (line : List Nat) :
    Option (List Nat) :=
  if statusKeyword line = str "SERIALNO" then some (store_serialno (keywordRest line))
  else cur

/-- `gpgsm_agent_scd_serialno` (lines 495-515): SCD SERIALNO with the
status callback; a successful exchange that produced no serial number
becomes `GPG_ERR_INTERNAL`, and on any failure nothing is stored. -/
def gpgsm_agent_scd_serialno (o : AgentOracle) : CallResult (Option (List Nat)) :=
  if o.startRc ≠ 0 then ⟨o.startRc, none, true, []⟩
  else
    let c := str "SCD SERIALNO"
    let r := o.reply c
    let serialno := r.status.foldl scd_serialno_status_step none
    if r.rc = 0 ∧ serialno = none then ⟨GPG_ERR_INTERNAL, none, true, [c]⟩
    else if r.rc ≠ 0 then ⟨r.rc, none, true, [c]⟩
    else ⟨r.rc, serialno, true, [c]⟩

/-- Truncation loop of `scd_keypairinfo_status_cb` (lines 531-540): scan
the first token; when anything follows it, scan the separating blanks and
the second token and cut the stored string right there (`*p = 0`). -/
def truncTwoTokens (s : List Nat) : List Nat :=
  let r1 := s.dropWhile (fun c => !(spacep c))
  match r1 with
  | [] => s
  | _ :: _ =>
    let r2 := r1.dropWhile spacep
    let r3 := r2.dropWhile (fun c => !(spacep c))
    s.take (s.length - r3.length)

/-- Entry stored by `scd_keypairinfo_status_cb` (lines 518-544) for one
status line: for a KEYPAIRINFO line, the remainder truncated to its first
two tokens; any other line stores nothing. -/
def keypairEntry (line : List Nat) : Option (List Nat) :=
  if statusKeyword line = str "KEYPAIRINFO" then
    some (truncTwoTokens (keywordRest line))
  else none

/-- One callback invocation of `scd_keypairinfo_status_cb`:
`append_to_strlist` (gnupg common library) appends the new entry at the
end of the list, so arrival order is kept. -/
def keypair_step (acc : List (List Nat)) (line : List Nat) : List (List Nat) :=
  match keypairEntry line with
  | some e => acc ++ [e]
  | none => acc

/-- The keypair-info list accumulated over the status lines of one
transaction, in arrival order. -/
def procKeypairinfo (lines : List (List Nat)) : List (List Nat) :=
  lines.foldl keypair_step []

/-- `gpgsm_agent_scd_keypairinfo` (lines 549-570): SCD LEARN --force with
the keypair-info status callback; an empty list on success becomes
`GPG_ERR_NO_DATA`. -/
def gpgsm_agent_scd_keypairinfo (o : AgentOracle) : CallResult (List (List Nat)) :=
  if o.startRc ≠ 0 then ⟨o.startRc, [], true, []⟩
  else
    let c := str "SCD LEARN --force"
    let r := o.reply c
    let list := procKeypairinfo r.status
    if r.rc = 0 ∧ list = [] then ⟨GPG_ERR_NO_DATA, [], true, [c]⟩
    else if r.rc ≠ 0 then ⟨r.rc, [], true, [c]⟩
    else ⟨0, list, true, [c]⟩

/-- `struct rootca_flags_s` from gpgsm.h, as used here. -/
structure rootca_flags_s where
  relax : Bool
  chain_model : Bool
  valid : Bool
deriving DecidableEq

/-- `istrusted_status_cb` (lines 572-584) folded over one status line:
TRUSTLISTFLAG lines set `relax` or `chain_model`; unknown sub-tokens are
ignored. -/
def istrusted_status_step (flags : rootca_flags_s) (line : List Nat) :
    rootca_flags_s :=
  match has_leading_keyword line (str "TRUSTLISTFLAG") with
  | none => flags
  | some s =>
    if (has_leading_keyword s (str "relax")).isSome then { flags with relax := true }
    else if (has_leading_keyword s (str "cm")).isSome then { flags with chain_model := true }
    else flags

/-- `gpgsm_agent_istrusted` (lines 590-621).  The certificate argument is
modelled by the fingerprint the external
`gpgsm_get_fingerprint_hexstring` would extract from it (`none` when that
extraction fails).  The flags record is zeroed first (`memset`); status
lines reach the callback during the transaction, and `valid` is set only
on a zero completion code. -/
def gpgsm_agent_istrusted (o : AgentOracle) (cert : Option (Option (List Nat)))
    (hexfpr : Option (List Nat)) : CallResult rootca_flags_s :=
  let flags0 : rootca_flags_s := ⟨false, false, false⟩
  if cert.isSome ∧ hexfpr.isSome then ⟨GPG_ERR_INV_ARG, flags0, false, []⟩
  else if o.startRc ≠ 0 then ⟨o.startRc, flags0, true, []⟩
  else
    match (match hexfpr with | some f => some f | none => cert.getD none) with
    | none => ⟨GPG_ERR_GENERAL, flags0, true, []⟩
    | some fpr =>
      let c := str "ISTRUSTED " ++ fpr
      let r := o.reply c
      let flags1 := r.status.foldl istrusted_status_step flags0
      if r.rc = 0 then ⟨0, { flags1 with valid := true }, true, [c]⟩
      else ⟨r.rc, flags1, true, [c]⟩

/-! ## Concrete oracles used by witnesses and counterexamples -/

/-- Oracle whose transactions all succeed with empty data and no status
lines. -/
def oEmpty : AgentOracle := ⟨0, fun _ => ⟨0, [], []⟩, true, true, GPG_ERR_ENOMEM⟩

/-- Oracle whose transactions all succeed, delivering the canonical
S-expression `"(1:A)"` as data. -/
def oSexpData : AgentOracle :=
  ⟨0, fun _ => ⟨0, str "(1:A)", []⟩, true, true, GPG_ERR_ENOMEM⟩

/-- Oracle whose transactions fail with `GPG_ERR_GENERAL` after having
delivered the status line `"TRUSTLISTFLAG relax"`. -/
def oTrustFail : AgentOracle :=
  ⟨0, fun _ => ⟨GPG_ERR_GENERAL, [], [str "TRUSTLISTFLAG relax"]⟩, true, true,
    GPG_ERR_ENOMEM⟩

/-- Oracle for the allocation-failure scenario: transactions succeed with
two data bytes, but the `xtrymalloc` of the wrapping buffer fails. -/
def oXtryFail : AgentOracle := ⟨0, fun _ => ⟨0, [7, 7], []⟩, true, false, GPG_ERR_ENOMEM⟩

/-! ## Claim theorems -/

/-- Claim C3: the claim (and the source's own comment "We do not pass
errors to avoid breaking other code") says a failing relay of a
PINENTRY_LAUNCHED inquiry never fails the transaction; in fact
`default_inq_cb` assigns the relay result to `err`, logs a failure, and
then returns `err` unchanged, so the relay error is propagated. -/
theorem default_inq_cb_propagates_relay_error :
    default_inq_cb GPG_ERR_GENERAL none 0 (str "PINENTRY_LAUNCHED") =
      GPG_ERR_GENERAL ∧
    GPG_ERR_GENERAL ≠ 0 := by
  exact ⟨rfl, by decide⟩

/-- Claim C8: for a digest algorithm outside {SHA1, RIPEMD160, MD5,
SHA256}, `gpgsm_scd_pksign` returns `GPG_ERR_DIGEST_ALGO` before
`start_agent` runs: no agent interaction occurs and in particular no
SCD SETDATA is issued. -/
theorem scd_pksign_unsupported_algo (o : AgentOracle) (keyid : List Nat)
    (desc : Option (List Nat)) (digest : List Nat) (algo : Nat)
    (h1 : algo ≠ GCRY_MD_SHA1) (h2 : algo ≠ GCRY_MD_RMD160)
    (h3 : algo ≠ GCRY_MD_MD5) (h4 : algo ≠ GCRY_MD_SHA256) :
    gpgsm_scd_pksign o keyid desc digest algo =
      ⟨GPG_ERR_DIGEST_ALGO, (none, 0), false, []⟩ := by
  have h : hashoptOf algo = none := by
    simp only [hashoptOf, h1, h2, h3, h4, if_false]
  simp only [gpgsm_scd_pksign, h]

theorem scd_pksign_unsupported_algo_witness :
    ((4 : Nat) ≠ GCRY_MD_SHA1 ∧ (4 : Nat) ≠ GCRY_MD_RMD160 ∧
      (4 : Nat) ≠ GCRY_MD_MD5 ∧ (4 : Nat) ≠ GCRY_MD_SHA256) ∧
    gpgsm_scd_pksign oEmpty [] none [1] 4 =
      ⟨GPG_ERR_DIGEST_ALGO, (none, 0), false, []⟩ :=
  ⟨⟨by decide, by decide, by decide, by decide⟩,
    scd_pksign_unsupported_algo oEmpty [] none [1] 4
      (by decide) (by decide) (by decide) (by decide)⟩

/-- Claim C10: when SCD SETDATA and SCD PKSIGN have succeeded but the
`xtrymalloc` of the wrapping buffer fails, `gpgsm_scd_pksign` frees the
signature bytes and returns 0 — success — while the result pointer stays
NULL, so a caller observes a successful return with no signature buffer. -/
theorem scd_pksign_alloc_failure_returns_success (o : AgentOracle)
    (keyid : List Nat) (desc : Option (List Nat)) (digest : List Nat)
    (algo : Nat) (hop : List Nat)
    (hA : hashoptOf algo = some hop) (h0 : o.startRc = 0)
    (hsz : digest.length * 2 + 50 ≤ ASSUAN_LINELENGTH)
    (h1 : (o.reply (str "SCD SETDATA " ++ hexUpper digest)).rc = 0)
    (h2 : (o.reply (str "SCD PKSIGN " ++ (hop ++ (str " " ++ keyid)))).rc = 0)
    (hx : o.xtryOk = false) :
    (gpgsm_scd_pksign o keyid desc digest algo).rc = 0 ∧
    (gpgsm_scd_pksign o keyid desc digest algo).val.1 = none := by
  simp only [gpgsm_scd_pksign, hA, h0, hx]
  rw [if_neg (by omega)]
  rw [if_neg (by omega)]
  rw [if_neg (by simp [h1])]
  rw [if_neg (by simp [h2])]
  rw [if_pos (by simp)]
  exact ⟨rfl, rfl⟩

theorem scd_pksign_alloc_failure_witness :
    hashoptOf GCRY_MD_SHA1 = some (str "--hash=sha1") ∧
    oXtryFail.xtryOk = false ∧
    (gpgsm_scd_pksign oXtryFail [] none [1] GCRY_MD_SHA1).rc = 0 ∧
    (gpgsm_scd_pksign oXtryFail [] none [1] GCRY_MD_SHA1).val.1 = none := by
  have h := scd_pksign_alloc_failure_returns_success oXtryFail [] none [1]
    GCRY_MD_SHA1 (str "--hash=sha1") (by decide) rfl (by decide) rfl rfl rfl
  exact ⟨by decide, rfl, h.1, h.2⟩

/-- Claim C2 (amended): a digest whose hex rendering would overflow the
command line (`digestlen * 2 + 50 > ASSUAN_LINELENGTH`) makes both sign
operations fail with `GPG_ERR_GENERAL` — not `GPG_ERR_INV_VALUE` as the
claim says — without sending any command line to the agent, though only
after `start_agent` has already established the agent connection. -/
theorem sign_oversized_digest_rejected (o : AgentOracle) (keygrip : List Nat)
    (desc : Option (List Nat)) (digest : List Nat) (algo : Nat)
    (h0 : o.startRc = 0)
    (hsz : digest.length * 2 + 50 > ASSUAN_LINELENGTH) :
    gpgsm_agent_pksign o keygrip desc digest algo =
      ⟨GPG_ERR_GENERAL, none, true, []⟩ ∧
    (∀ hop, hashoptOf algo = some hop →
      gpgsm_scd_pksign o keygrip desc digest algo =
        ⟨GPG_ERR_GENERAL, (none, 0), true, []⟩) := by
  constructor
  · simp only [gpgsm_agent_pksign, h0]
    rw [if_neg (by omega), if_pos hsz]
  · intro hop hA
    simp only [gpgsm_scd_pksign, hA, h0]
    rw [if_neg (by omega), if_pos hsz]

theorem sign_oversized_digest_rejected_witness :
    (List.replicate 477 0).length * 2 + 50 > ASSUAN_LINELENGTH ∧
    gpgsm_agent_pksign oEmpty [] none (List.replicate 477 0) GCRY_MD_SHA1 =
      ⟨GPG_ERR_GENERAL, none, true, []⟩ ∧
    gpgsm_scd_pksign oEmpty [] none (List.replicate 477 0) GCRY_MD_SHA1 =
      ⟨GPG_ERR_GENERAL, (none, 0), true, []⟩ := by
  have h := sign_oversized_digest_rejected oEmpty [] none (List.replicate 477 0)
    GCRY_MD_SHA1 rfl (by simp only [List.length_replicate, ASSUAN_LINELENGTH]; omega)
  exact ⟨by simp only [List.length_replicate, ASSUAN_LINELENGTH]; omega,
    h.1, h.2 (str "--hash=sha1") (by decide)⟩

/-- Claim C2 as stated is false: with an oversized digest,
`gpgsm_agent_pksign` returns `GPG_ERR_GENERAL`, not `GPG_ERR_INV_VALUE`,
and it has already contacted the agent (`start_agent` ran) when the guard
fires. -/
theorem sign_oversized_digest_not_inv_value :
    (gpgsm_agent_pksign oEmpty [] none (List.replicate 477 0)
        GCRY_MD_SHA1).rc ≠ GPG_ERR_INV_VALUE ∧
    (gpgsm_agent_pksign oEmpty [] none (List.replicate 477 0)
        GCRY_MD_SHA1).rc = GPG_ERR_GENERAL ∧
    (gpgsm_agent_pksign oEmpty [] none (List.replicate 477 0)
        GCRY_MD_SHA1).started = true := by
  have hsz : (List.replicate 477 (0 : Nat)).length * 2 + 50 > ASSUAN_LINELENGTH := by
    simp only [List.length_replicate, ASSUAN_LINELENGTH]
    omega
  have hres : gpgsm_agent_pksign oEmpty [] none (List.replicate 477 0) GCRY_MD_SHA1 =
      ⟨GPG_ERR_GENERAL, none, true, []⟩ := by
    simp only [gpgsm_agent_pksign]
    rw [if_neg (by simp [oEmpty]), if_pos hsz]
  rw [hres]
  exact ⟨by decide, rfl, rfl⟩

/-- Claim C6 (amended): havekey, passwd and keyinfo reject a keygrip whose
length is not exactly 40 characters with `GPG_ERR_INV_VALUE` before
sending any command, but only after `start_agent` has established the
agent connection; decrypt alone performs the check before the agent is
contacted.  The checks test only the length — hex-ness is not inspected —
and the sign operation performs no keygrip check at all (see the
counterexample). -/
theorem keygrip_length_checked (o : AgentOracle) (kg : List Nat)
    (desc : Option (List Nat)) (ct : List Nat)
    (h0 : o.startRc = 0) (hlen : kg.length ≠ 40) :
    gpgsm_agent_havekey o (some kg) = ⟨GPG_ERR_INV_VALUE, (), true, []⟩ ∧
    gpgsm_agent_passwd o (some kg) desc = ⟨GPG_ERR_INV_VALUE, (), true, []⟩ ∧
    gpgsm_agent_keyinfo o (some kg) = ⟨GPG_ERR_INV_VALUE, none, true, []⟩ ∧
    gpgsm_agent_pkdecrypt o (some kg) desc (some ct) =
      ⟨GPG_ERR_INV_VALUE, none, false, []⟩ := by
  refine ⟨?_, ?_, ?_, ?_⟩
  · simp [gpgsm_agent_havekey, h0, hlen]
  · simp [gpgsm_agent_passwd, h0, hlen]
  · simp [gpgsm_agent_keyinfo, h0, hlen]
  · simp [gpgsm_agent_pkdecrypt, hlen]

theorem keygrip_length_checked_witness :
    (str "ABC").length ≠ 40 ∧
    gpgsm_agent_havekey oEmpty (some (str "ABC")) =
      ⟨GPG_ERR_INV_VALUE, (), true, []⟩ ∧
    gpgsm_agent_passwd oEmpty (some (str "ABC")) none =
      ⟨GPG_ERR_INV_VALUE, (), true, []⟩ ∧
    gpgsm_agent_keyinfo oEmpty (some (str "ABC")) =
      ⟨GPG_ERR_INV_VALUE, none, true, []⟩ ∧
    gpgsm_agent_pkdecrypt oEmpty (some (str "ABC")) none (some []) =
      ⟨GPG_ERR_INV_VALUE, none, false, []⟩ := by
  have h := keygrip_length_checked oEmpty (str "ABC") none [] rfl (by decide)
  exact ⟨by decide, h.1, h.2.1, h.2.2.1, h.2.2.2⟩

/-- Claim C6 as stated is false for the sign operation: `gpgsm_agent_pksign`
performs no keygrip validation at all; with the 3-character non-hex
keygrip `"XYZ"` the full command sequence is sent — including
`SIGKEY XYZ` — and the call succeeds instead of failing with
`GPG_ERR_INV_VALUE` before the agent is contacted. -/
theorem pksign_no_keygrip_validation :
    (gpgsm_agent_pksign oSexpData (str "XYZ") none [1] GCRY_MD_SHA1).rc = 0 ∧
    (gpgsm_agent_pksign oSexpData (str "XYZ") none [1] GCRY_MD_SHA1).cmds =
      [str "RESET", str "SIGKEY " ++ str "XYZ",
       str "SETHASH " ++ natDecimal GCRY_MD_SHA1 ++ str " " ++ hexUpper [1],
       str "PKSIGN"] ∧
    (gpgsm_agent_pksign oSexpData (str "XYZ") none [1] GCRY_MD_SHA1).rc ≠
      GPG_ERR_INV_VALUE := by
  decide

theorem foldl_serialno_no_kw (ls : List (List Nat))
    (h : ∀ l ∈ ls, statusKeyword l ≠ str "SERIALNO") :
    ∀ cur : Option (List Nat), ls.foldl scd_serialno_status_step cur = cur := by
  induction ls with
  | nil => intro cur; rfl
  | cons l ls ih =>
    intro cur
    simp only [List.foldl_cons]
    have hstep : scd_serialno_status_step cur l = cur := by
      simp only [scd_serialno_status_step, if_neg (h l (by simp))]
    rw [hstep]
    exact ih (fun x hx => h x (by simp [hx])) cur

/-- Claim C5 (amended): when the SCD SERIALNO transaction completes
successfully but no SERIALNO status line supplied a serial number, the
operation returns `GPG_ERR_INTERNAL` — not `GPG_ERR_NO_DATA` as the claim
says — and stores no serial number. -/
theorem serialno_absent_internal (o : AgentOracle) (h0 : o.startRc = 0)
    (hrc : (o.reply (str "SCD SERIALNO")).rc = 0)
    (hst : ∀ l ∈ (o.reply (str "SCD SERIALNO")).status,
      statusKeyword l ≠ str "SERIALNO") :
    gpgsm_agent_scd_serialno o =
      ⟨GPG_ERR_INTERNAL, none, true, [str "SCD SERIALNO"]⟩ := by
  simp only [gpgsm_agent_scd_serialno, h0]
  rw [if_neg (by omega)]
  rw [foldl_serialno_no_kw _ hst none]
  rw [if_pos ⟨hrc, rfl⟩]

theorem serialno_absent_internal_witness :
    (oEmpty.reply (str "SCD SERIALNO")).rc = 0 ∧
    gpgsm_agent_scd_serialno oEmpty =
      ⟨GPG_ERR_INTERNAL, none, true, [str "SCD SERIALNO"]⟩ := by
  refine ⟨rfl, serialno_absent_internal oEmpty rfl rfl ?_⟩
  intro l hl
  simp [oEmpty] at hl

/-- Claim C5 as stated is false: a successful SCD SERIALNO exchange with no
SERIALNO status line returns `GPG_ERR_INTERNAL`, which is not the claimed
`GPG_ERR_NO_DATA`; no serial number is stored. -/
theorem serialno_absent_not_no_data :
    (gpgsm_agent_scd_serialno oEmpty).rc = GPG_ERR_INTERNAL ∧
    (gpgsm_agent_scd_serialno oEmpty).rc ≠ GPG_ERR_NO_DATA ∧
    (gpgsm_agent_scd_serialno oEmpty).val = none := by
  decide

/-- Claim C7: the claim (and the source's own comment "ROOTCA_FLAGS is
guaranteed to be cleared on error") says the record is never left
partially set when the query fails; but when the transaction delivers a
`TRUSTLISTFLAG relax` status line and then fails, the query returns a
nonzero code with the record at `{relax := true, chain_model := false,
valid := false}` — an individual flag set while the query failed. -/
theorem istrusted_partial_flags_on_error :
    (gpgsm_agent_istrusted oTrustFail none (some (str "AA"))).rc =
      GPG_ERR_GENERAL ∧
    (gpgsm_agent_istrusted oTrustFail none (some (str "AA"))).val =
      ⟨true, false, false⟩ ∧
    GPG_ERR_GENERAL ≠ 0 := by
  decide

/-! ## Whitespace tokenization (for the KEYPAIRINFO truncation property) -/

/-- Head of the byte string fails predicate `p` (or the string is empty). -/
def headFails (p : Nat → Bool) : List Nat → Prop
  | [] => True
  | c :: _ => p c = false

theorem headFails_dropWhile (p : Nat → Bool) (l : List Nat) :
    headFails p (l.dropWhile p) := by
  induction l with
  | nil => trivial
  | cons c r ih =>
    rw [List.dropWhile_cons]
    split
    · exact ih
    · rename_i hc
      simp only [headFails]
      simp only [Bool.not_eq_true] at hc
      exact hc

theorem takeWhile_append_of (p : Nat → Bool) (l1 l2 : List Nat)
    (h1 : ∀ c ∈ l1, p c = true) (h2 : headFails p l2) :
    (l1 ++ l2).takeWhile p = l1 := by
  induction l1 with
  | nil =>
    simp only [List.nil_append]
    cases l2 with
    | nil => rfl
    | cons c r =>
      simp only [headFails] at h2
      simp [List.takeWhile_cons, h2]
  | cons a l1 ih =>
    simp only [List.cons_append, List.takeWhile_cons, h1 a (by simp), if_true]
    rw [ih (fun c hc => h1 c (by simp [hc]))]

theorem dropWhile_append_of (p : Nat → Bool) (l1 l2 : List Nat)
    (h1 : ∀ c ∈ l1, p c = true) (h2 : headFails p l2) :
    (l1 ++ l2).dropWhile p = l2 := by
  induction l1 with
  | nil =>
    simp only [List.nil_append]
    cases l2 with
    | nil => rfl
    | cons c r =>
      simp only [headFails] at h2
      simp [List.dropWhile_cons, h2]
  | cons a l1 ih =>
    simp only [List.cons_append, List.dropWhile_cons, h1 a (by simp), if_true]
    exact ih (fun c hc => h1 c (by simp [hc]))

theorem length_dropWhile_le (p : Nat → Bool) (l : List Nat) :
    (l.dropWhile p).length ≤ l.length := by
  induction l with
  | nil => simp
  | cons c r ih =>
    rw [List.dropWhile_cons]
    split
    · simp only [List.length_cons]
      omega
    · simp

/-- Fuel-driven helper for `wsTokens`; any fuel at least the length of the
input yields its whitespace-separated tokens. -/
def wsTokensAux : Nat → List Nat → List (List Nat)
  | _, [] => []
  | 0, _ :: _ => []
  | fuel + 1, c :: rest =>
    if spacep c then wsTokensAux fuel rest
    else ((c :: rest).takeWhile (fun x => !(spacep x))) ::
      wsTokensAux fuel (rest.dropWhile (fun x => !(spacep x)))

/-- Whitespace-separated tokens of a byte string — the "fields" of a
status line in the sense of the claim. -/
def wsTokens (s : List Nat) : List (List Nat) := wsTokensAux s.length s

theorem wsTokensAux_fuel : ∀ (n : Nat) (s : List Nat) (f1 f2 : Nat),
    s.length ≤ n → s.length ≤ f1 → s.length ≤ f2 →
    wsTokensAux f1 s = wsTokensAux f2 s := by
  intro n
  induction n using Nat.strong_induction_on with
  | _ n ih =>
    intro s f1 f2 hn h1 h2
    match s with
    | [] => cases f1 <;> cases f2 <;> rfl
    | c :: rest =>
      simp only [List.length_cons] at hn h1 h2
      match f1, f2 with
      | 0, _ => omega
      | _ + 1, 0 => omega
      | ff1 + 1, ff2 + 1 =>
        simp only [wsTokensAux]
        by_cases hc : spacep c
        · rw [if_pos hc, if_pos hc]
          exact ih rest.length (by omega) rest ff1 ff2 le_rfl (by omega) (by omega)
        · rw [if_neg hc, if_neg hc]
          congr 1
          have hd := length_dropWhile_le (fun x => !(spacep x)) rest
          exact ih rest.length (by omega) (rest.dropWhile (fun x => !(spacep x)))
            ff1 ff2 hd (by omega) (by omega)

theorem wsTokens_nil : wsTokens [] = [] := rfl

theorem wsTokens_cons_space {c : Nat} (r : List Nat) (hc : spacep c = true) :
    wsTokens (c :: r) = wsTokens r := by
  show wsTokensAux (c :: r).length (c :: r) = wsTokensAux r.length r
  simp only [List.length_cons, wsTokensAux]
  rw [if_pos hc]

theorem wsTokens_cons_tok {c : Nat} (r : List Nat) (hc : spacep c = false) :
    wsTokens (c :: r) =
      ((c :: r).takeWhile (fun x => !(spacep x))) ::
        wsTokens (r.dropWhile (fun x => !(spacep x))) := by
  show wsTokensAux (c :: r).length (c :: r) = _
  simp only [List.length_cons, wsTokensAux]
  rw [if_neg (by simp [hc])]
  congr 1
  exact wsTokensAux_fuel (r.dropWhile (fun x => !(spacep x))).length _ r.length _
    le_rfl (length_dropWhile_le _ r) le_rfl

theorem wsTokens_skip_spaces (sp u : List Nat) (h : ∀ c ∈ sp, spacep c = true) :
    wsTokens (sp ++ u) = wsTokens u := by
  induction sp with
  | nil => simp
  | cons a sp ih =>
    rw [List.cons_append, wsTokens_cons_space _ (h a (by simp))]
    exact ih (fun c hc => h c (by simp [hc]))

theorem wsTokens_token_lead (t u : List Nat) (ht : t ≠ [])
    (hall : ∀ c ∈ t, spacep c = false)
    (hu : headFails (fun x => !(spacep x)) u) :
    wsTokens (t ++ u) = t :: wsTokens u := by
  match t, ht with
  | a :: tt, _ =>
    have ha : spacep a = false := hall a (by simp)
    rw [List.cons_append, wsTokens_cons_tok _ ha]
    have hallb : ∀ c ∈ a :: tt, (fun x => !(spacep x)) c = true := by
      intro c hc
      simp [hall c hc]
    congr 1
    · rw [← List.cons_append]
      exact takeWhile_append_of _ _ _ hallb hu
    · have : (tt ++ u).dropWhile (fun x => !(spacep x)) = u :=
        dropWhile_append_of _ _ _ (fun c hc => by simp [hall c (by simp [hc])]) hu
      rw [this]

theorem wsTokens_single_token (t : List Nat) (ht : t ≠ [])
    (hall : ∀ c ∈ t, spacep c = false) : wsTokens t = [t] := by
  have h := wsTokens_token_lead t [] ht hall trivial
  simpa using h

theorem ns_mem_not_space {l : List Nat} {c : Nat}
    (hc : c ∈ l.takeWhile (fun x => !(spacep x))) : spacep c = false := by
  have h := List.mem_takeWhile_imp hc
  simpa using h

/-- The heart of the KEYPAIRINFO truncation property: on a remainder that
does not start with a blank and holds more than two fields, the `*p = 0`
truncation keeps exactly the first two fields. -/
theorem truncTwoTokens_take (s : List Nat) (hs : headFails spacep s)
    (htok : 2 < (wsTokens s).length) :
    wsTokens (truncTwoTokens s) = (wsTokens s).take 2 := by
  match s, hs with
  | [], _ => simp [wsTokens_nil] at htok
  | a :: s0, hs =>
    have ha : spacep a = false := hs
    have h3 : wsTokens (a :: s0) =
        ((a :: s0).takeWhile (fun x => !(spacep x))) ::
          wsTokens (s0.dropWhile (fun x => !(spacep x))) := wsTokens_cons_tok s0 ha
    have hr1 : (a :: s0).dropWhile (fun x => !(spacep x)) =
        s0.dropWhile (fun x => !(spacep x)) := by
      rw [List.dropWhile_cons, if_pos (by simp [ha])]
    obtain ⟨b, r1t, hr1c⟩ :
        ∃ b r1t, s0.dropWhile (fun x => !(spacep x)) = b :: r1t := by
      cases hdw : s0.dropWhile (fun x => !(spacep x)) with
      | nil =>
        rw [h3, hdw, wsTokens_nil] at htok
        simp at htok
      | cons b r1t => exact ⟨b, r1t, rfl⟩
    have hb : spacep b = true := by
      have h := headFails_dropWhile (fun x => !(spacep x)) s0
      rw [hr1c] at h
      simpa [headFails] using h
    have hsplit1 : wsTokens (b :: r1t) =
        wsTokens ((b :: r1t).dropWhile spacep) := by
      conv_lhs => rw [← List.takeWhile_append_dropWhile spacep (b :: r1t)]
      exact wsTokens_skip_spaces _ _ (fun c hc => List.mem_takeWhile_imp hc)
    obtain ⟨d, r2t, hr2c⟩ :
        ∃ d r2t, (b :: r1t).dropWhile spacep = d :: r2t := by
      cases hdw2 : (b :: r1t).dropWhile spacep with
      | nil =>
        rw [h3, hr1c, hsplit1, hdw2, wsTokens_nil] at htok
        simp at htok
      | cons d r2t => exact ⟨d, r2t, rfl⟩
    have hd : spacep d = false := by
      have h := headFails_dropWhile spacep (b :: r1t)
      rw [hr2c] at h
      simpa [headFails] using h
    have h7 : wsTokens (d :: r2t) =
        ((d :: r2t).takeWhile (fun x => !(spacep x))) ::
          wsTokens (r2t.dropWhile (fun x => !(spacep x))) := wsTokens_cons_tok r2t hd
    -- the three prefix pieces
    have hdect1 : (a :: s0).takeWhile (fun x => !(spacep x)) ++ (b :: r1t) = a :: s0 := by
      conv_rhs => rw [← List.takeWhile_append_dropWhile (fun x => !(spacep x)) (a :: s0)]
      rw [hr1, hr1c]
    have hdecsp : (b :: r1t).takeWhile spacep ++ (d :: r2t) = b :: r1t := by
      conv_rhs => rw [← List.takeWhile_append_dropWhile spacep (b :: r1t)]
      rw [hr2c]
    have hdect2 : (d :: r2t).takeWhile (fun x => !(spacep x)) ++
        r2t.dropWhile (fun x => !(spacep x)) = d :: r2t := by
      conv_rhs => rw [← List.takeWhile_append_dropWhile (fun x => !(spacep x)) (d :: r2t)]
      rw [List.dropWhile_cons, if_pos (by simp [hd])]
    -- truncation result
    have htr : truncTwoTokens (a :: s0) =
        (a :: s0).take ((a :: s0).length -
          (r2t.dropWhile (fun x => !(spacep x))).length) := by
      simp only [truncTwoTokens]
      rw [hr1, hr1c, hr2c, List.dropWhile_cons, if_pos (by simp [hd])]
    have hdecomp : a :: s0 =
        ((a :: s0).takeWhile (fun x => !(spacep x)) ++
          ((b :: r1t).takeWhile spacep ++
            (d :: r2t).takeWhile (fun x => !(spacep x)))) ++
          r2t.dropWhile (fun x => !(spacep x)) := by
      rw [List.append_assoc, List.append_assoc, hdect2, hdecsp, hdect1]
    have htake : truncTwoTokens (a :: s0) =
        (a :: s0).takeWhile (fun x => !(spacep x)) ++
          ((b :: r1t).takeWhile spacep ++
            (d :: r2t).takeWhile (fun x => !(spacep x))) := by
      rw [htr]
      conv_lhs => rw [hdecomp]
      exact List.take_left' (by simp only [List.length_append]; omega)
    -- pieces are nonempty / of the right character classes
    have ht1ne : (a :: s0).takeWhile (fun x => !(spacep x)) ≠ [] := by
      rw [List.takeWhile_cons, if_pos (by simp [ha])]
      simp
    have hspne : ∃ spt, (b :: r1t).takeWhile spacep = b :: spt := by
      rw [List.takeWhile_cons, if_pos hb]
      exact ⟨_, rfl⟩
    have ht2ne : (d :: r2t).takeWhile (fun x => !(spacep x)) ≠ [] := by
      rw [List.takeWhile_cons, if_pos (by simp [hd])]
      simp
    -- tokens of the truncated string
    have htoks : wsTokens (truncTwoTokens (a :: s0)) =
        [(a :: s0).takeWhile (fun x => !(spacep x)),
         (d :: r2t).takeWhile (fun x => !(spacep x))] := by
      rw [htake]
      obtain ⟨spt, hspt⟩ := hspne
      rw [wsTokens_token_lead _ _ ht1ne (fun c hc => ns_mem_not_space hc)
        (by rw [hspt]; simp [headFails, hb])]
      rw [wsTokens_skip_spaces _ _ (fun c hc => List.mem_takeWhile_imp hc)]
      rw [wsTokens_single_token _ ht2ne (fun c hc => ns_mem_not_space hc)]
    -- tokens of the original string
    have htoks0 : wsTokens (a :: s0) =
        (a :: s0).takeWhile (fun x => !(spacep x)) ::
          (d :: r2t).takeWhile (fun x => !(spacep x)) ::
            wsTokens (r2t.dropWhile (fun x => !(spacep x))) := by
      rw [h3, hr1c, hsplit1, hr2c, h7]
    rw [htoks, htoks0]
    rfl

theorem keypair_foldl_filterMap : ∀ (lines acc : List (List Nat)),
    lines.foldl keypair_step acc = acc ++ lines.filterMap keypairEntry := by
  intro lines
  induction lines with
  | nil => intro acc; simp
  | cons l ls ih =>
    intro acc
    simp only [List.foldl_cons, List.filterMap_cons, keypair_step]
    cases h : keypairEntry l with
    | none => simp [ih acc]
    | some e =>
      rw [ih (acc ++ [e])]
      simp

/-- Claim C9: each KEYPAIRINFO status line contributes one entry, appended
in arrival order (the accumulated list is exactly the `filterMap` of the
status lines), and for a line carrying more than two whitespace-separated
fields after the keyword, the stored entry consists of exactly the first
two fields — everything past the second token is cut off. -/
theorem keypairinfo_truncation_order (lines : List (List Nat)) :
    procKeypairinfo lines = lines.filterMap keypairEntry ∧
    (∀ l entry, keypairEntry l = some entry →
      2 < (wsTokens (keywordRest l)).length →
      wsTokens entry = (wsTokens (keywordRest l)).take 2) := by
  constructor
  · have h := keypair_foldl_filterMap lines []
    simpa [procKeypairinfo] using h
  · intro l entry he htok
    have hent : entry = truncTwoTokens (keywordRest l) := by
      by_cases hk : statusKeyword l = str "KEYPAIRINFO"
      · simp only [keypairEntry, hk, if_true, Option.some_inj] at he
        exact he.symm
      · simp [keypairEntry, hk] at he
    rw [hent]
    exact truncTwoTokens_take (keywordRest l)
      (headFails_dropWhile spacep _) htok

theorem keypairinfo_truncation_order_witness :
    procKeypairinfo [str "KEYPAIRINFO 0123ABCD OPENPGP.3 extra stuff"] =
      [str "0123ABCD OPENPGP.3"] ∧
    keypairEntry (str "KEYPAIRINFO 0123ABCD OPENPGP.3 extra stuff") =
      some (str "0123ABCD OPENPGP.3") ∧
    2 < (wsTokens (keywordRest (str "KEYPAIRINFO 0123ABCD OPENPGP.3 extra stuff"))).length ∧
    wsTokens (str "0123ABCD OPENPGP.3") =
      (wsTokens (keywordRest (str "KEYPAIRINFO 0123ABCD OPENPGP.3 extra stuff"))).take 2 := by
  have h := keypairinfo_truncation_order
    [str "KEYPAIRINFO 0123ABCD OPENPGP.3 extra stuff"]
  refine ⟨?_, by decide, by decide, ?_⟩
  · rw [h.1]
    decide
  · exact h.2 (str "KEYPAIRINFO 0123ABCD OPENPGP.3 extra stuff")
      (str "0123ABCD OPENPGP.3") (by decide) (by decide)
